import Mathlib

/-!
Verification of the chopper protocol engine of stegotorus
(src/src/protocol/chop.cc, with the AEAD framing of src/src/crypt.cc).

Bytes are modelled as natural numbers (always < 256 where the C code
stores them in uint8_t); machine-integer arithmetic is modelled with
explicit reductions modulo 2^8, 2^32 and 2^64.
-/

namespace Chop

/-! Constants from src/src/protocol/chop.cc lines 70-74. -/

def HEADER_LEN : Nat := 16

def TRAILER_LEN : Nat := 16

def SECTION_LEN : Nat := 65535

def MIN_BLOCK_SIZE : Nat := HEADER_LEN + TRAILER_LEN

def MAX_BLOCK_SIZE : Nat := MIN_BLOCK_SIZE + SECTION_LEN * 2

/-! Opcodes (enum opcode_t, chop.cc lines 76-87). -/

def op_DAT : Nat := 0

def op_FIN : Nat := 1

def op_RST : Nat := 2

def op_RK1 : Nat := 3

def op_RK2 : Nat := 4

def op_RK3 : Nat := 5

def op_RESERVED0 : Nat := 6

def op_STEG0 : Nat := 128

def op_LAST : Nat := 255

/-- The rejection test of the encoding constructor of block_header
(chop.cc line 98): f > op_LAST or op_RESERVED0 <= f < op_STEG0. -/
def opInvalid (f : Nat) : Bool :=
  decide (f > op_LAST) || (decide (f ≥ op_RESERVED0) && decide (f < op_STEG0))

/-- A block header: 16 cleartext bytes and 16 ciphertext bytes
(class block_header, chop.cc lines 89-187). -/
structure BlockHeader where
  clear : List Nat
  ciphr : List Nat

/-- The 16 cleartext header bytes laid out by the encoding constructor
(chop.cc lines 104-122): S big-endian in bytes 0-3, D in 4-5, P in 6-7,
F in byte 8, zero in bytes 9-15. -/
def headerClear (s d p f : Nat) : List Nat :=
  [ (s >>> 24) &&& 0xFF, (s >>> 16) &&& 0xFF, (s >>> 8) &&& 0xFF, s &&& 0xFF,
    (d >>> 8) &&& 0xFF, d &&& 0xFF,
    (p >>> 8) &&& 0xFF, p &&& 0xFF,
    f % 256,
    0, 0, 0, 0, 0, 0, 0 ]

/-- The encoding constructor block_header(s, d, p, f, ec)
(chop.cc lines 95-125).  The parameter ec models the AES-ECB
encryption of one 16-byte block under the header key. -/
def mkBlockHeader (s d p f : Nat) (ec : List Nat → List Nat) : BlockHeader :=
  if opInvalid f then
    { clear := List.replicate 16 0xFF, ciphr := List.replicate 16 0xFF }
  else
    let c := headerClear s d p f
    { clear := c, ciphr := ec c }

/-- The decoding constructor block_header(buf, dc) (chop.cc lines
127-135): peek 16 ciphertext bytes and decrypt them with the header
key (modelled by dc). -/
def decodeBlockHeader (buf : List Nat) (dc : List Nat → List Nat) : BlockHeader :=
  if buf.length < 16 then
    { clear := List.replicate 16 0xFF, ciphr := List.replicate 16 0xFF }
  else
    { clear := dc (buf.take 16), ciphr := buf.take 16 }

/-- block_header::seqno (chop.cc lines 137-144). -/
def BlockHeader.seqno (h : BlockHeader) : Nat :=
  (h.clear.getD 0 0 <<< 24) ||| (h.clear.getD 1 0 <<< 16) |||
    (h.clear.getD 2 0 <<< 8) ||| h.clear.getD 3 0

/-- block_header::dlen (chop.cc lines 146-150). -/
def BlockHeader.dlen (h : BlockHeader) : Nat :=
  (h.clear.getD 4 0 <<< 8) ||| h.clear.getD 5 0

/-- block_header::plen (chop.cc lines 152-156). -/
def BlockHeader.plen (h : BlockHeader) : Nat :=
  (h.clear.getD 6 0 <<< 8) ||| h.clear.getD 7 0

/-- block_header::total_len (chop.cc lines 158-161). -/
def BlockHeader.total_len (h : BlockHeader) : Nat :=
  HEADER_LEN + TRAILER_LEN + h.dlen + h.plen

/-- block_header::opcode (chop.cc lines 163-166). -/
def BlockHeader.opcode (h : BlockHeader) : Nat :=
  h.clear.getD 8 0

/-- block_header::nonce (chop.cc lines 178-181): the encrypted header
doubles as the AEAD nonce. -/
def BlockHeader.nonce (h : BlockHeader) : List Nat :=
  h.ciphr

/-- block_header::valid(window) (chop.cc lines 168-176).  ck is the
bitwise or of the seven check bytes; delta is the uint32 difference
seqno() - window, where window is a uint64 parameter; the window test
is or-ed into ck without short-circuiting, and the header is valid iff
the combined ck is zero. -/
def BlockHeader.valid (h : BlockHeader) (window : Nat) : Bool :=
  let ck1 : Nat :=
    h.clear.getD 9 0 ||| h.clear.getD 10 0 ||| h.clear.getD 11 0 |||
      h.clear.getD 12 0 ||| h.clear.getD 13 0 ||| h.clear.getD 14 0 |||
      h.clear.getD 15 0
  let delta : Nat := (h.seqno + 2 ^ 64 - window % 2 ^ 64) % 2 ^ 64 % 2 ^ 32
  let ck : Nat := ck1 ||| (if delta &&& 0xFFFFFF00 ≠ 0 then 1 else 0)
  decide (ck = 0)

/-! Bitwise helper lemmas. -/

/-- A value below 2^32 has a zero high-24-bit mask exactly when it is
below 256; this is the window test delta & ~uint32_t(0xFF). -/
theorem and_hi_mask_eq_zero_iff {n : Nat} (h : n < 2 ^ 32) :
    (n &&& 0xFFFFFF00 = 0) ↔ n < 256 := by
  have hshift : (0xFFFFFF00 : Nat) = 0xFFFFFF <<< 8 := by
    norm_num [Nat.shiftLeft_eq]
  constructor
  · intro h0
    have hbits : ∀ i, 8 ≤ i → n.testBit i = false := by
      intro i hi
      by_cases hlt : i < 32
      · have hmask : (0xFFFFFF00 : Nat).testBit i = true := by
          rw [hshift, Nat.testBit_shiftLeft]
          have h24 : (0xFFFFFF : Nat) = 2 ^ 24 - 1 := by norm_num
          rw [h24, Nat.testBit_two_pow_sub_one]
          simp only [ge_iff_le, Bool.and_eq_true, decide_eq_true_eq]
          omega
        have := congrArg (fun m => m.testBit i) h0
        simp only [Nat.testBit_and, Nat.zero_testBit, Bool.and_eq_false_iff] at this
        rcases this with hn | hm
        · exact hn
        · rw [hmask] at hm; exact absurd hm (by simp)
      · have hle : (2 : Nat) ^ 32 ≤ 2 ^ i := Nat.pow_le_pow_right (by norm_num) (by omega)
        exact Nat.testBit_lt_two_pow (lt_of_lt_of_le h hle)
    have : n < 2 ^ 8 := Nat.lt_pow_two_of_testBit n hbits
    omega
  · intro hn
    apply Nat.eq_of_testBit_eq
    intro i
    simp only [Nat.testBit_and, Nat.zero_testBit]
    by_cases hi : 8 ≤ i
    · have hle : (2 : Nat) ^ 8 ≤ 2 ^ i := Nat.pow_le_pow_right (by norm_num) hi
      have hnb : n.testBit i = false :=
        Nat.testBit_lt_two_pow (lt_of_lt_of_le (by omega) hle)
      simp [hnb]
    · have hmask : (0xFFFFFF00 : Nat).testBit i = false := by
        rw [hshift, Nat.testBit_shiftLeft]
        simp only [ge_iff_le, Bool.and_eq_false_iff, decide_eq_false_iff_not, not_le]
        left; omega
      simp [hmask]

/-- The or of two naturals is zero exactly when both are. -/
theorem or_eq_zero_iff (a b : Nat) : a ||| b = 0 ↔ a = 0 ∧ b = 0 := by
  constructor
  · intro h
    constructor
    · apply Nat.eq_of_testBit_eq
      intro i
      have := congrArg (fun m => m.testBit i) h
      simp only [Nat.testBit_or, Nat.zero_testBit, Bool.or_eq_false_iff] at this
      simp [this.1]
    · apply Nat.eq_of_testBit_eq
      intro i
      have := congrArg (fun m => m.testBit i) h
      simp only [Nat.testBit_or, Nat.zero_testBit, Bool.or_eq_false_iff] at this
      simp [this.2]
  · rintro ⟨rfl, rfl⟩
    simp

/-- Big-endian recombination: the four bytes extracted from a 32-bit
value by the encoding constructor are reassembled by seqno() into the
original value. -/
theorem seqno_recombine {s : Nat} (hs : s < 2 ^ 32) :
    ((((s >>> 24) &&& 0xFF) <<< 24) ||| (((s >>> 16) &&& 0xFF) <<< 16) |||
      (((s >>> 8) &&& 0xFF) <<< 8) ||| (s &&& 0xFF)) = s := by
  have hff : (0xFF : Nat) = 2 ^ 8 - 1 := by norm_num
  have e24 : (s >>> 24) &&& 0xFF = s / 2 ^ 24 % 2 ^ 8 := by
    rw [hff, Nat.and_pow_two_sub_one_eq_mod, Nat.shiftRight_eq_div_pow]
  have e16 : (s >>> 16) &&& 0xFF = s / 2 ^ 16 % 2 ^ 8 := by
    rw [hff, Nat.and_pow_two_sub_one_eq_mod, Nat.shiftRight_eq_div_pow]
  have e8 : (s >>> 8) &&& 0xFF = s / 2 ^ 8 % 2 ^ 8 := by
    rw [hff, Nat.and_pow_two_sub_one_eq_mod, Nat.shiftRight_eq_div_pow]
  have e0 : s &&& 0xFF = s % 2 ^ 8 := by
    rw [hff, Nat.and_pow_two_sub_one_eq_mod]
  rw [e24, e16, e8, e0]
  simp only [Nat.shiftLeft_eq]
  set a := s / 2 ^ 24 % 2 ^ 8 with ha
  set b := s / 2 ^ 16 % 2 ^ 8 with hb
  set c := s / 2 ^ 8 % 2 ^ 8 with hc
  set d := s % 2 ^ 8 with hd
  have hb8 : b < 2 ^ 8 := Nat.mod_lt _ (by norm_num)
  have hc8 : c < 2 ^ 8 := Nat.mod_lt _ (by norm_num)
  have hd8 : d < 2 ^ 8 := Nat.mod_lt _ (by norm_num)
  have h1 : 2 ^ 24 * a + b * 2 ^ 16 = 2 ^ 24 * a ||| b * 2 ^ 16 :=
    Nat.mul_add_lt_is_or (by omega) a
  have h2 : 2 ^ 16 * (2 ^ 8 * a + b) + c * 2 ^ 8 = 2 ^ 16 * (2 ^ 8 * a + b) ||| c * 2 ^ 8 :=
    Nat.mul_add_lt_is_or (by omega) (2 ^ 8 * a + b)
  have h3 : 2 ^ 8 * (2 ^ 16 * a + 2 ^ 8 * b + c) + d =
      2 ^ 8 * (2 ^ 16 * a + 2 ^ 8 * b + c) ||| d :=
    Nat.mul_add_lt_is_or (by omega) (2 ^ 16 * a + 2 ^ 8 * b + c)
  calc a * 2 ^ 24 ||| b * 2 ^ 16 ||| c * 2 ^ 8 ||| d
      = (2 ^ 24 * a ||| b * 2 ^ 16) ||| c * 2 ^ 8 ||| d := by rw [mul_comm a]
    _ = (2 ^ 24 * a + b * 2 ^ 16) ||| c * 2 ^ 8 ||| d := by rw [← h1]
    _ = (2 ^ 16 * (2 ^ 8 * a + b)) ||| c * 2 ^ 8 ||| d := by
          rw [show 2 ^ 24 * a + b * 2 ^ 16 = 2 ^ 16 * (2 ^ 8 * a + b) from by ring]
    _ = (2 ^ 16 * (2 ^ 8 * a + b) + c * 2 ^ 8) ||| d := by rw [← h2]
    _ = (2 ^ 8 * (2 ^ 16 * a + 2 ^ 8 * b + c)) ||| d := by
          rw [show 2 ^ 16 * (2 ^ 8 * a + b) + c * 2 ^ 8 =
                2 ^ 8 * (2 ^ 16 * a + 2 ^ 8 * b + c) from by ring]
    _ = 2 ^ 8 * (2 ^ 16 * a + 2 ^ 8 * b + c) + d := by rw [← h3]
    _ = s := by omega

/-- Two-byte recombination for the 16-bit D and P fields. -/
theorem len16_recombine {d : Nat} (hd : d < 2 ^ 16) :
    (((d >>> 8) &&& 0xFF) <<< 8) ||| (d &&& 0xFF) = d := by
  have hff : (0xFF : Nat) = 2 ^ 8 - 1 := by norm_num
  have e8 : (d >>> 8) &&& 0xFF = d / 2 ^ 8 % 2 ^ 8 := by
    rw [hff, Nat.and_pow_two_sub_one_eq_mod, Nat.shiftRight_eq_div_pow]
  have e0 : d &&& 0xFF = d % 2 ^ 8 := by
    rw [hff, Nat.and_pow_two_sub_one_eq_mod]
  rw [e8, e0]
  simp only [Nat.shiftLeft_eq]
  have h1 : 2 ^ 8 * (d / 2 ^ 8 % 2 ^ 8) + d % 2 ^ 8 =
      2 ^ 8 * (d / 2 ^ 8 % 2 ^ 8) ||| d % 2 ^ 8 :=
    Nat.mul_add_lt_is_or (Nat.mod_lt _ (by norm_num)) (d / 2 ^ 8 % 2 ^ 8)
  calc d / 2 ^ 8 % 2 ^ 8 * 2 ^ 8 ||| d % 2 ^ 8
      = 2 ^ 8 * (d / 2 ^ 8 % 2 ^ 8) ||| d % 2 ^ 8 := by rw [mul_comm]
    _ = 2 ^ 8 * (d / 2 ^ 8 % 2 ^ 8) + d % 2 ^ 8 := by rw [← h1]
    _ = d := by omega

/-! The reassembly queue (chop.cc lines 201-291).  A slot holds either
nothing or the data section plus opcode of a received block; a slot is
occupied iff its data pointer is non-null, which we model with Option.
next_to_process is a uint32; reads are reduced mod 2^32. -/

structure ReassemblyQueue where
  cbuf : Fin 256 → Option (List Nat × Nat)
  next_to_process : Nat

/-- The initial queue (constructor, chop.cc lines 216-220). -/
def emptyQueue : ReassemblyQueue :=
  { cbuf := fun _ => none, next_to_process := 0 }

/-- reassembly_queue::window (chop.cc line 280). -/
def ReassemblyQueue.window (q : ReassemblyQueue) : Nat :=
  q.next_to_process % 2 ^ 32

/-- reassembly_queue::remove_next (chop.cc lines 234-248): look at slot
next_to_process & 0xFF; if occupied, clear it, bump next_to_process
(uint32) and return the element, else return an empty element. -/
def ReassemblyQueue.remove_next (q : ReassemblyQueue) :
    Option (List Nat × Nat) × ReassemblyQueue :=
  let front : Fin 256 :=
    ⟨(q.next_to_process % 2 ^ 32) &&& 0xFF,
      lt_of_le_of_lt Nat.and_le_right (by norm_num)⟩
  match q.cbuf front with
  | some e =>
      (some e, { cbuf := Function.update q.cbuf front none,
                 next_to_process := (q.next_to_process % 2 ^ 32 + 1) % 2 ^ 32 })
  | none => (none, q)

/-- reassembly_queue::insert (chop.cc lines 256-275): reject if the
uint32 difference seqno - window() exceeds 255, or if the slot at
uint8(front + (seqno - window())) is already occupied; otherwise store
(data, op) there. -/
def ReassemblyQueue.insert (q : ReassemblyQueue) (seqno op : Nat) (data : List Nat) :
    Bool × ReassemblyQueue :=
  let w := q.window
  let delta := (seqno % 2 ^ 32 + 2 ^ 32 - w) % 2 ^ 32
  if delta > 255 then (false, q)
  else
    let front := w &&& 0xFF
    let pos : Fin 256 := ⟨(front + delta) % 256, Nat.mod_lt _ (by norm_num)⟩
    if (q.cbuf pos).isSome then (false, q)
    else (true, { cbuf := Function.update q.cbuf pos (some (data, op)),
                  next_to_process := q.next_to_process })

/-! The send scheduler (chop.cc lines 849-917). -/

/-- A downstream connection as the scheduler sees it: an identity, a
flag for whether conn->steg is non-null, and the value its
steg->transmit_room() would return. -/
structure ChopConn where
  id : Nat
  hasSteg : Bool
  room : Nat

/-- The clamping applied to each candidate room (chop.cc lines
875-879): rooms of at most MIN_BLOCK_SIZE count as 0, rooms above
MAX_BLOCK_SIZE are clamped to MAX_BLOCK_SIZE. -/
def clampRoom (r : Nat) : Nat :=
  let r1 := if r ≤ MIN_BLOCK_SIZE then 0 else r
  if r1 > MAX_BLOCK_SIZE then MAX_BLOCK_SIZE else r1

/-- The loop state of pick_connection (chop.cc lines 852-855). -/
structure PickState where
  maxbelow : Nat
  minabove : Nat
  targbelow : Option ChopConn
  targabove : Option ChopConn

def pickInit : PickState :=
  { maxbelow := 0, minabove := MAX_BLOCK_SIZE + 1, targbelow := none, targabove := none }

/-- One iteration of the candidate loop of pick_connection (chop.cc
lines 866-898). -/
def pickStep (desired : Nat) (st : PickState) (conn : ChopConn) : PickState :=
  if conn.hasSteg then
    let room := clampRoom conn.room
    if room ≥ desired then
      if room < st.minabove then
        { st with minabove := room, targabove := some conn }
      else st
    else
      if room > st.maxbelow then
        { st with maxbelow := room, targbelow := some conn }
      else st
  else st

/-- chop_circuit_t::pick_connection (chop.cc lines 849-917): desired is
capped at SECTION_LEN and grown by MIN_BLOCK_SIZE; the downstream with
the smallest adequate room wins, else the one with the largest
inadequate room, else nothing. -/
def pick_connection (downstreams : List ChopConn) (d : Nat) : Option ChopConn × Nat :=
  let desired := (if d > SECTION_LEN then SECTION_LEN else d) + MIN_BLOCK_SIZE
  let st := downstreams.foldl (pickStep desired) pickInit
  match st.targabove with
  | some c => (some c, desired)
  | none => (st.targbelow, st.maxbelow)

/-! The block encoder (chop.cc lines 785-845 together with
gcm_encryptor_impl::encrypt, crypt.cc lines 334-359). -/

/-- gcm_encryptor_impl::encrypt (crypt.cc lines 334-359): with empty
associated data and the given nonce, write the ciphertext (one byte
per plaintext byte, modelled by ct) followed by the 16-byte GCM tag
(modelled by tag). -/
def gcmSeal (ct tag : List Nat → List Nat → List Nat) (nonce ptext : List Nat) : List Nat :=
  ct nonce ptext ++ tag nonce ptext

/-- chop_circuit_t::send_targeted(conn, d, p, f, payload) (chop.cc
lines 785-845): asserts d, p at most SECTION_LEN, builds the header
with the circuit's send_seq, asserts it valid at window send_seq,
copies d payload bytes and p zero bytes, seals them with the encrypted
header as nonce, and emits header ++ ciphertext ++ tag.  none models
the assertion-failure/error paths on which no block is emitted. -/
def send_targeted4 (ecb : List Nat → List Nat) (ct tag : List Nat → List Nat → List Nat)
    (send_seq d p f : Nat) (payload : Option (List Nat)) : Option (BlockHeader × List Nat) :=
  if payload.isNone ∧ d ≠ 0 then none
  else if d > SECTION_LEN ∨ p > SECTION_LEN then none
  else
    let hdr := mkBlockHeader send_seq d p f ecb
    if hdr.valid send_seq = false then none
    else
      let pay := payload.getD []
      if pay.length < d then none
      else
        let encodebuf := pay.take d ++ List.replicate p 0
        some (hdr, hdr.ciphr ++ gcmSeal ct tag hdr.nonce encodebuf)

/-- chop_circuit_t::send_targeted(conn, blocksize) (chop.cc lines
765-783): take the pending upstream bytes, cap the data length at
SECTION_LEN, choose FIN iff the remainder fits and EOF is pending with
no FIN sent, and pad with blocksize - MIN_BLOCK_SIZE - avail bytes
computed in size_t arithmetic. -/
def send_targeted2 (ecb : List Nat → List Nat) (ct tag : List Nat → List Nat → List Nat)
    (upstream_eof sent_fin : Bool) (pending : List Nat) (send_seq blocksize : Nat) :
    Option (BlockHeader × List Nat) :=
  if blocksize < MIN_BLOCK_SIZE ∨ blocksize > MAX_BLOCK_SIZE then none
  else
    let avail0 := pending.length
    let availOp : Nat × Nat :=
      if avail0 > SECTION_LEN then (SECTION_LEN, op_DAT)
      else if upstream_eof && !sent_fin then (avail0, op_FIN)
      else (avail0, op_DAT)
    let avail := availOp.1
    let p := (blocksize - MIN_BLOCK_SIZE + 2 ^ 64 - avail) % 2 ^ 64
    send_targeted4 ecb ct tag send_seq avail p availOp.2 (some pending)

/-! The send-sequence state machine (C8).  chop.cc touches send_seq in
exactly two places: the header construction (line 808) reads it, and
line 841 increments it after a successful emission. -/

structure SendState where
  send_seq : Nat
  sent_fin : Bool

/-- Modelled from the spec: send_seq starts at 0 and sent_fin starts
false.  The zero-initialisation of chop_circuit_t's members happens in
util.h's zeroing allocator, which is not among the provided sources;
the spec states that send_seq is monotone and starts at 0. -/
def initSendState : SendState :=
  { send_seq := 0, sent_fin := false }

/-- One emission attempt (the tail of send_targeted, chop.cc lines
833-844): on success the uint32 send_seq is incremented and sent_fin
latches if the block was a FIN; on failure nothing changes. -/
def emitStep (ecb : List Nat → List Nat) (ct tag : List Nat → List Nat → List Nat)
    (st : SendState) (d p f : Nat) (payload : List Nat) :
    Option ((BlockHeader × List Nat) × SendState) :=
  match send_targeted4 ecb ct tag st.send_seq d p f (some payload) with
  | none => none
  | some out =>
      some (out, { send_seq := (st.send_seq + 1) % 2 ^ 32,
                   sent_fin := st.sent_fin || (f == op_FIN) })

/-- A send request: the d, p, f and payload arguments of one
send_targeted call. -/
structure SendReq where
  d : Nat
  p : Nat
  f : Nat
  payload : List Nat

/-- Run a sequence of emission attempts; failed attempts leave the
state untouched and emit nothing.  Returns the headers of the emitted
blocks in order, with the final state. -/
def runSends (ecb : List Nat → List Nat) (ct tag : List Nat → List Nat → List Nat) :
    List SendReq → SendState → List BlockHeader × SendState
  | [], st => ([], st)
  | r :: rs, st =>
      match emitStep ecb ct tag st r.d r.p r.f r.payload with
      | none => runSends ecb ct tag rs st
      | some (out, st') =>
          let rest := runSends ecb ct tag rs st'
          (out.1 :: rest.1, rest.2)

/-! The receive pipeline (chop_conn_t::recv, chop.cc lines 1156-1241,
and chop_circuit_t::process_queue, chop.cc lines 919-1001). -/

/-- How the block loop of chop_conn_t::recv ends: fail models the
return -1 paths (invalid header, MAC failure, failed insert); done
models falling out of the loop and going on to process_queue. -/
inductive LoopExit where
  | fail : LoopExit
  | done : LoopExit
deriving DecidableEq

/-- The block loop of chop_conn_t::recv (chop.cc lines 1186-1238).
dc models AES-ECB header decryption; gcmOpen models
gcm_decryptor::decrypt on nonce and ciphertext-plus-tag, returning the
plaintext or none on MAC failure.  Returns how the loop ended, the
queue, and what remains in recv_pending.  Note the invalid-header path
returns before draining, the MAC-failure and failed-insert paths
after. -/
def recvBlocks (dc : List Nat → List Nat) (gcmOpen : List Nat → List Nat → Option (List Nat))
    (fuel : Nat) (q : ReassemblyQueue) (pending : List Nat) :
    LoopExit × ReassemblyQueue × List Nat :=
  match fuel with
  | 0 => (LoopExit.done, q, pending)
  | fuel + 1 =>
    if pending.length = 0 then (LoopExit.done, q, pending)
    else if pending.length < MIN_BLOCK_SIZE then (LoopExit.done, q, pending)
    else
      let hdr := decodeBlockHeader pending dc
      if hdr.valid q.window = false then (LoopExit.fail, q, pending)
      else if pending.length < hdr.total_len then (LoopExit.done, q, pending)
      else
        let body := (pending.drop HEADER_LEN).take (hdr.total_len - HEADER_LEN)
        match gcmOpen hdr.nonce body with
        | none => (LoopExit.fail, q, pending.drop hdr.total_len)
        | some ptext =>
            let data := ptext.take hdr.dlen
            let r := q.insert hdr.seqno hdr.opcode data
            if r.1 then recvBlocks dc gcmOpen fuel r.2 (pending.drop hdr.total_len)
            else (LoopExit.fail, r.2, pending.drop hdr.total_len)

/-- The loop state of chop_circuit_t::process_queue (chop.cc lines
919-987): the queue, the circuit's received_fin flag, the loop-local
pending_fin / pending_error / sent_error flags, the number of
send_special(op_RST, 0) calls made, whether circuit_recv_eof was
invoked, the bytes delivered upstream, and the block count. -/
structure PQState where
  q : ReassemblyQueue
  received_fin : Bool
  pending_fin : Bool
  pending_error : Bool
  sent_error : Bool
  rstAttempts : Nat
  eofSignaled : Bool
  delivered : List Nat
  count : Nat

/-- The while loop of process_queue (chop.cc lines 927-987). -/
def pqIter (fuel : Nat) (st : PQState) : PQState :=
  match fuel with
  | 0 => st
  | fuel + 1 =>
    match st.q.remove_next with
    | (none, _) => st
    | (some (data, op), q1) =>
      let st1 := { st with q := q1 }
      let st2 :=
        if op = op_FIN then
          if st.received_fin then { st1 with pending_error := true }
          else
            let stf := { st1 with pending_fin := true }
            if data.length ≠ 0 then { stf with delivered := stf.delivered ++ data }
            else stf
        else if op = op_DAT then
          if data.length ≠ 0 then
            if st.received_fin then { st1 with pending_error := true }
            else { st1 with delivered := st1.delivered ++ data }
          else st1
        else if op = op_RST then
          { st1 with eofSignaled := true, pending_error := true }
        else { st1 with pending_error := true }
      let st3 :=
        if st2.pending_fin && !st2.received_fin then
          { st2 with eofSignaled := true, received_fin := true }
        else st2
      let st4 :=
        if st3.pending_error && !st3.sent_error then
          { st3 with
            rstAttempts := st3.rstAttempts + (if op ≠ op_RST ∧ op ≠ op_FIN then 1 else 0),
            sent_error := true }
        else st3
      pqIter fuel { st4 with count := st4.count + 1 }

/-- The observable outcome of one chop_conn_t::recv call: whether it
succeeded (false models return -1), the queue, the remaining
recv_pending bytes, the circuit's received_fin flag, whether an EOF
was delivered upstream, how many RST blocks were sent, and the data
bytes delivered upstream. -/
structure RecvOut where
  ok : Bool
  q : ReassemblyQueue
  leftover : List Nat
  received_fin : Bool
  eofSignaled : Bool
  rstAttempts : Nat
  delivered : List Nat

/-- chop_conn_t::recv on an attached circuit (chop.cc lines 1185-1240):
run the block loop; a loop failure is returned at once (no RST is sent
on that path), otherwise process_queue runs and its sent_error flag
decides the result. -/
def chop_recv (dc : List Nat → List Nat) (gcmOpen : List Nat → List Nat → Option (List Nat))
    (received_fin : Bool) (q : ReassemblyQueue) (pending : List Nat) : RecvOut :=
  match recvBlocks dc gcmOpen (pending.length + 1) q pending with
  | (LoopExit.fail, q1, left) =>
      { ok := false, q := q1, leftover := left, received_fin := received_fin,
        eofSignaled := false, rstAttempts := 0, delivered := [] }
  | (LoopExit.done, q1, left) =>
      let st := pqIter 257
        { q := q1, received_fin := received_fin, pending_fin := false,
          pending_error := false, sent_error := false, rstAttempts := 0,
          eofSignaled := false, delivered := [], count := 0 }
      { ok := !st.sent_error, q := st.q, leftover := left,
        received_fin := st.received_fin, eofSignaled := st.eofSignaled,
        rstAttempts := st.rstAttempts, delivered := st.delivered }

/-! Helper lemmas about the header. -/

theorem and_ff (n : Nat) : n &&& 0xFF = n % 256 := by
  have hff : (0xFF : Nat) = 2 ^ 8 - 1 := by norm_num
  rw [hff, Nat.and_pow_two_sub_one_eq_mod]

theorem shr_and_ff (s k : Nat) : (s >>> k) &&& 0xFF = s / 2 ^ k % 256 := by
  rw [and_ff, Nat.shiftRight_eq_div_pow]

/-- block_header::valid written out (definitional). -/
theorem valid_repr (h : BlockHeader) (w : Nat) :
    h.valid w = decide ((h.clear.getD 9 0 ||| h.clear.getD 10 0 ||| h.clear.getD 11 0 |||
      h.clear.getD 12 0 ||| h.clear.getD 13 0 ||| h.clear.getD 14 0 ||| h.clear.getD 15 0 |||
      (if ((h.seqno + 2 ^ 64 - w % 2 ^ 64) % 2 ^ 64 % 2 ^ 32) &&& 0xFFFFFF00 ≠ 0
       then 1 else 0)) = 0) := rfl

theorem opInvalid_false_iff (f : Nat) :
    opInvalid f = false ↔ (f ≤ 5 ∨ (128 ≤ f ∧ f ≤ 255)) := by
  unfold opInvalid op_LAST op_RESERVED0 op_STEG0
  simp only [Bool.or_eq_false_iff, Bool.and_eq_false_iff, decide_eq_false_iff_not, not_lt, not_le]
  constructor
  · rintro ⟨h1, h2 | h2⟩ <;> omega
  · intro h
    rcases h with h | h <;> omega

theorem mk_clear {f : Nat} (s d p : Nat) (ec : List Nat → List Nat)
    (hf : opInvalid f = false) :
    (mkBlockHeader s d p f ec).clear = headerClear s d p f := by
  unfold mkBlockHeader
  rw [hf]
  simp

theorem mk_ciphr {f : Nat} (s d p : Nat) (ec : List Nat → List Nat)
    (hf : opInvalid f = false) :
    (mkBlockHeader s d p f ec).ciphr = ec (headerClear s d p f) := by
  unfold mkBlockHeader
  rw [hf]
  simp

theorem headerClear_getD0 (s d p f : Nat) :
    (headerClear s d p f).getD 0 0 = (s >>> 24) &&& 0xFF := rfl

theorem seqno_of_clear (s d p f : Nat) {h : BlockHeader}
    (hc : h.clear = headerClear s d p f) (hs : s < 2 ^ 32) :
    h.seqno = s := by
  unfold BlockHeader.seqno
  rw [hc]
  show ((s >>> 24) &&& 0xFF) <<< 24 ||| ((s >>> 16) &&& 0xFF) <<< 16 |||
      ((s >>> 8) &&& 0xFF) <<< 8 ||| (s &&& 0xFF) = s
  exact seqno_recombine hs

theorem dlen_of_clear (s d p f : Nat) {h : BlockHeader}
    (hc : h.clear = headerClear s d p f) (hd : d < 2 ^ 16) :
    h.dlen = d := by
  unfold BlockHeader.dlen
  rw [hc]
  show ((d >>> 8) &&& 0xFF) <<< 8 ||| (d &&& 0xFF) = d
  exact len16_recombine hd

theorem plen_of_clear (s d p f : Nat) {h : BlockHeader}
    (hc : h.clear = headerClear s d p f) (hp : p < 2 ^ 16) :
    h.plen = p := by
  unfold BlockHeader.plen
  rw [hc]
  show ((p >>> 8) &&& 0xFF) <<< 8 ||| (p &&& 0xFF) = p
  exact len16_recombine hp

theorem opcode_of_clear (s d p f : Nat) {h : BlockHeader}
    (hc : h.clear = headerClear s d p f) (hf : f ≤ 255) :
    h.opcode = f := by
  unfold BlockHeader.opcode
  rw [hc]
  show f % 256 = f
  omega

/-- A header built for the circuit's own send_seq passes the validity
assertion of send_targeted (chop.cc line 809). -/
theorem valid_self {f : Nat} (s d p : Nat) (ec : List Nat → List Nat)
    (hf : opInvalid f = false) (hs : s < 2 ^ 32) :
    (mkBlockHeader s d p f ec).valid s = true := by
  have hc := mk_clear s d p ec hf
  have hsq := seqno_of_clear s d p f hc hs
  rw [valid_repr, hc, hsq]
  have hdelta : (s + 2 ^ 64 - s % 2 ^ 64) % 2 ^ 64 % 2 ^ 32 = 0 := by omega
  rw [hdelta]
  have h9 : (headerClear s d p f).getD 9 0 = 0 := rfl
  have h10 : (headerClear s d p f).getD 10 0 = 0 := rfl
  have h11 : (headerClear s d p f).getD 11 0 = 0 := rfl
  have h12 : (headerClear s d p f).getD 12 0 = 0 := rfl
  have h13 : (headerClear s d p f).getD 13 0 = 0 := rfl
  have h14 : (headerClear s d p f).getD 14 0 = 0 := rfl
  have h15 : (headerClear s d p f).getD 15 0 = 0 := rfl
  rw [h9, h10, h11, h12, h13, h14, h15]
  norm_num

/-- A header whose cleartext is all 0xFF fails validation at every
window. -/
theorem valid_of_clear_ff {h : BlockHeader}
    (hc : h.clear = List.replicate 16 0xFF) (w : Nat) : h.valid w = false := by
  have h9 : h.clear.getD 9 0 = 255 := by rw [hc]; rfl
  have h10 : h.clear.getD 10 0 = 255 := by rw [hc]; rfl
  have h11 : h.clear.getD 11 0 = 255 := by rw [hc]; rfl
  have h12 : h.clear.getD 12 0 = 255 := by rw [hc]; rfl
  have h13 : h.clear.getD 13 0 = 255 := by rw [hc]; rfl
  have h14 : h.clear.getD 14 0 = 255 := by rw [hc]; rfl
  have h15 : h.clear.getD 15 0 = 255 := by rw [hc]; rfl
  rw [valid_repr, h9, h10, h11, h12, h13, h14, h15]
  apply decide_eq_false
  intro hzero
  have h7 : ((((((255 : Nat) ||| 255) ||| 255) ||| 255) ||| 255) ||| 255) ||| 255 = 0 :=
    ((or_eq_zero_iff _ _).mp hzero).1
  exact absurd h7 (by decide)

/-! Claim theorems. -/

/-- C2: for every decrypted 16-byte header and every 32-bit window
value w, block_header::valid(w) returns true iff all seven check
bytes (cleartext bytes 9-15) are zero and the unsigned 32-bit
difference seqno - w is at most 255; a header is rejected exactly when
the check field is nonzero or the sequence number falls outside the
256-entry window starting at w. -/
theorem chop_c2 (h : BlockHeader) (w : Nat) (hw : w < 2 ^ 32) (hs : h.seqno < 2 ^ 32) :
    h.valid w = true ↔
      ((h.clear.getD 9 0 = 0 ∧ h.clear.getD 10 0 = 0 ∧ h.clear.getD 11 0 = 0 ∧
        h.clear.getD 12 0 = 0 ∧ h.clear.getD 13 0 = 0 ∧ h.clear.getD 14 0 = 0 ∧
        h.clear.getD 15 0 = 0) ∧ (h.seqno + 2 ^ 32 - w) % 2 ^ 32 ≤ 255) := by
  rw [valid_repr, decide_eq_true_eq]
  have hlt : (h.seqno + 2 ^ 32 - w) % 2 ^ 32 < 2 ^ 32 := Nat.mod_lt _ (by norm_num)
  have hdel : (h.seqno + 2 ^ 64 - w % 2 ^ 64) % 2 ^ 64 % 2 ^ 32 =
      (h.seqno + 2 ^ 32 - w) % 2 ^ 32 := by omega
  have hind : ((if ((h.seqno + 2 ^ 64 - w % 2 ^ 64) % 2 ^ 64 % 2 ^ 32) &&& 0xFFFFFF00 ≠ 0
      then (1 : Nat) else 0) = 0) ↔ (h.seqno + 2 ^ 32 - w) % 2 ^ 32 ≤ 255 := by
    rw [hdel]
    by_cases hc : ((h.seqno + 2 ^ 32 - w) % 2 ^ 32) &&& 0xFFFFFF00 = 0
    · rw [if_neg (fun hne => hne hc)]
      exact iff_of_true rfl (by have := (and_hi_mask_eq_zero_iff hlt).mp hc; omega)
    · rw [if_pos hc]
      refine iff_of_false one_ne_zero ?_
      intro hle
      exact hc ((and_hi_mask_eq_zero_iff hlt).mpr (by omega))
  simp only [or_eq_zero_iff]
  rw [hind]
  tauto

/-- C2 witness: the all-zero header is accepted at window 0. -/
theorem chop_c2_witness :
    (({ clear := List.replicate 16 0, ciphr := List.replicate 16 0 } : BlockHeader).valid 0 = true ↔
      ((({ clear := List.replicate 16 0, ciphr := List.replicate 16 0 } : BlockHeader).clear.getD 9 0 = 0 ∧
        ({ clear := List.replicate 16 0, ciphr := List.replicate 16 0 } : BlockHeader).clear.getD 10 0 = 0 ∧
        ({ clear := List.replicate 16 0, ciphr := List.replicate 16 0 } : BlockHeader).clear.getD 11 0 = 0 ∧
        ({ clear := List.replicate 16 0, ciphr := List.replicate 16 0 } : BlockHeader).clear.getD 12 0 = 0 ∧
        ({ clear := List.replicate 16 0, ciphr := List.replicate 16 0 } : BlockHeader).clear.getD 13 0 = 0 ∧
        ({ clear := List.replicate 16 0, ciphr := List.replicate 16 0 } : BlockHeader).clear.getD 14 0 = 0 ∧
        ({ clear := List.replicate 16 0, ciphr := List.replicate 16 0 } : BlockHeader).clear.getD 15 0 = 0) ∧
       (({ clear := List.replicate 16 0, ciphr := List.replicate 16 0 } : BlockHeader).seqno + 2 ^ 32 - 0) % 2 ^ 32 ≤ 255)) :=
  chop_c2 { clear := List.replicate 16 0, ciphr := List.replicate 16 0 } 0
    (by norm_num) (by decide)

/-- C10: for every S, D, P and every opcode f in the reserved range
6-127 (or above 255), the encoding constructor produces a header whose
sixteen cleartext bytes and sixteen ciphertext bytes are all 0xFF,
valid(w) is false for every window w, and send_targeted can never emit
such a block. -/
theorem chop_c10 (s d p f : Nat) (ec : List Nat → List Nat)
    (hf : (6 ≤ f ∧ f ≤ 127) ∨ 255 < f) :
    (mkBlockHeader s d p f ec).clear = List.replicate 16 0xFF ∧
    (mkBlockHeader s d p f ec).ciphr = List.replicate 16 0xFF ∧
    (∀ w, (mkBlockHeader s d p f ec).valid w = false) ∧
    (∀ ct tag payload, send_targeted4 ec ct tag s d p f payload = none) := by
  have hinv : opInvalid f = true := by
    unfold opInvalid op_LAST op_RESERVED0 op_STEG0
    simp only [Bool.or_eq_true, Bool.and_eq_true, decide_eq_true_eq]
    omega
  have hclear : (mkBlockHeader s d p f ec).clear = List.replicate 16 0xFF := by
    unfold mkBlockHeader; rw [hinv]; simp
  have hciphr : (mkBlockHeader s d p f ec).ciphr = List.replicate 16 0xFF := by
    unfold mkBlockHeader; rw [hinv]; simp
  refine ⟨hclear, hciphr, fun w => valid_of_clear_ff hclear w, ?_⟩
  intro ct tag payload
  unfold send_targeted4
  split
  · rfl
  · split
    · rfl
    · simp [valid_of_clear_ff hclear]

/-- C10 witness: opcode 6 at concrete inputs. -/
theorem chop_c10_witness :
    (mkBlockHeader 0 0 0 6 (fun x => x)).clear = List.replicate 16 0xFF ∧
    (mkBlockHeader 0 0 0 6 (fun x => x)).valid 5 = false ∧
    send_targeted4 (fun x => x) (fun _ x => x) (fun _ _ => List.replicate 16 0)
      0 0 0 6 (some []) = none :=
  ⟨(chop_c10 0 0 0 6 (fun x => x) (Or.inl ⟨by norm_num, by norm_num⟩)).1,
   (chop_c10 0 0 0 6 (fun x => x) (Or.inl ⟨by norm_num, by norm_num⟩)).2.2.1 5,
   (chop_c10 0 0 0 6 (fun x => x) (Or.inl ⟨by norm_num, by norm_num⟩)).2.2.2 _ _ _⟩

/-- C3: insert(seq, op, data) returns false exactly when the unsigned
32-bit difference seq - next_to_process exceeds 255 or the slot
targeted by seq (index seq mod 256) already holds a block; on
rejection nothing changes, otherwise (data, op) is stored at slot
seq mod 256 and true is returned with next_to_process unchanged. -/
theorem chop_c3 (q : ReassemblyQueue) (seqno op : Nat) (data : List Nat)
    (hq : q.next_to_process < 2 ^ 32) (hs : seqno < 2 ^ 32) :
    ((q.insert seqno op data).1 = false ↔
      (255 < (seqno + 2 ^ 32 - q.next_to_process) % 2 ^ 32 ∨
       (q.cbuf ⟨seqno % 256, Nat.mod_lt _ (by norm_num)⟩).isSome = true)) ∧
    ((q.insert seqno op data).1 = false → (q.insert seqno op data).2 = q) ∧
    ((q.insert seqno op data).1 = true →
      (q.insert seqno op data).2 =
        { cbuf := Function.update q.cbuf ⟨seqno % 256, Nat.mod_lt _ (by norm_num)⟩
            (some (data, op)),
          next_to_process := q.next_to_process }) := by
  have hw : q.next_to_process % 2 ^ 32 = q.next_to_process := Nat.mod_eq_of_lt hq
  have hsq : seqno % 2 ^ 32 = seqno := Nat.mod_eq_of_lt hs
  simp only [ReassemblyQueue.insert, ReassemblyQueue.window]
  simp only [hw, hsq]
  have hfr : (⟨((q.next_to_process &&& 0xFF) +
        (seqno + 2 ^ 32 - q.next_to_process) % 2 ^ 32) % 256,
        Nat.mod_lt _ (by norm_num)⟩ : Fin 256) =
      (⟨seqno % 256, Nat.mod_lt _ (by norm_num)⟩ : Fin 256) := by
    apply Fin.ext
    show ((q.next_to_process &&& 0xFF) +
        (seqno + 2 ^ 32 - q.next_to_process) % 2 ^ 32) % 256 = seqno % 256
    have hand : q.next_to_process &&& 0xFF = q.next_to_process % 256 := and_ff _
    omega
  rw [hfr]
  by_cases hD : 255 < (seqno + 2 ^ 32 - q.next_to_process) % 2 ^ 32
  · rw [if_pos hD]
    exact ⟨iff_of_true rfl (Or.inl hD), fun _ => rfl, fun hx => by simp at hx⟩
  · rw [if_neg hD]
    by_cases hocc : (q.cbuf ⟨seqno % 256, Nat.mod_lt _ (by norm_num)⟩).isSome = true
    · rw [if_pos hocc]
      exact ⟨iff_of_true rfl (Or.inr hocc), fun _ => rfl, fun hx => by simp at hx⟩
    · rw [if_neg hocc]
      exact ⟨iff_of_false (by simp) (fun hor => hor.elim hD hocc),
             fun hx => by simp at hx, fun _ => rfl⟩

/-- C3 witness: inserting sequence number 3 into the empty queue
succeeds and stores at slot 3. -/
theorem chop_c3_witness :
    (((emptyQueue.insert 3 0 [7]).1 = false ↔
      (255 < (3 + 2 ^ 32 - emptyQueue.next_to_process) % 2 ^ 32 ∨
       (emptyQueue.cbuf ⟨3 % 256, Nat.mod_lt _ (by norm_num)⟩).isSome = true)) ∧
    ((emptyQueue.insert 3 0 [7]).1 = false → (emptyQueue.insert 3 0 [7]).2 = emptyQueue) ∧
    ((emptyQueue.insert 3 0 [7]).1 = true →
      (emptyQueue.insert 3 0 [7]).2 =
        { cbuf := Function.update emptyQueue.cbuf ⟨3 % 256, Nat.mod_lt _ (by norm_num)⟩
            (some ([7], 0)),
          next_to_process := emptyQueue.next_to_process })) :=
  chop_c3 emptyQueue 3 0 [7] (by decide) (by norm_num)

/-- C4: remove_next() inspects slot next_to_process mod 256: if
occupied it returns that slot's element, clears the slot, and advances
next_to_process by exactly 1 modulo 2^32; if empty it returns an empty
element and leaves the queue unchanged (so successive non-empty
removals are consecutive with no gap). -/
theorem chop_c4 (q : ReassemblyQueue) (hq : q.next_to_process < 2 ^ 32) :
    ((q.cbuf ⟨q.next_to_process % 256, Nat.mod_lt _ (by norm_num)⟩).isSome = true →
      (q.remove_next).1 = q.cbuf ⟨q.next_to_process % 256, Nat.mod_lt _ (by norm_num)⟩ ∧
      (q.remove_next).2 =
        { cbuf := Function.update q.cbuf
            ⟨q.next_to_process % 256, Nat.mod_lt _ (by norm_num)⟩ none,
          next_to_process := (q.next_to_process + 1) % 2 ^ 32 }) ∧
    (q.cbuf ⟨q.next_to_process % 256, Nat.mod_lt _ (by norm_num)⟩ = none →
      q.remove_next = (none, q)) := by
  have hw : q.next_to_process % 2 ^ 32 = q.next_to_process := Nat.mod_eq_of_lt hq
  simp only [ReassemblyQueue.remove_next]
  simp only [hw]
  have hfr : (⟨q.next_to_process &&& 0xFF,
        lt_of_le_of_lt Nat.and_le_right (by norm_num)⟩ : Fin 256) =
      (⟨q.next_to_process % 256, Nat.mod_lt _ (by norm_num)⟩ : Fin 256) :=
    Fin.ext (and_ff _)
  rw [hfr]
  rcases hcb : q.cbuf ⟨q.next_to_process % 256, Nat.mod_lt _ (by norm_num)⟩ with _ | e
  · simp [hcb]
  · simp [hcb]

/-- C4 witness: on the empty queue the front slot is empty and
remove_next changes nothing. -/
theorem chop_c4_witness :
    (((emptyQueue.cbuf ⟨emptyQueue.next_to_process % 256, Nat.mod_lt _ (by norm_num)⟩).isSome = true →
      (emptyQueue.remove_next).1 =
        emptyQueue.cbuf ⟨emptyQueue.next_to_process % 256, Nat.mod_lt _ (by norm_num)⟩ ∧
      (emptyQueue.remove_next).2 =
        { cbuf := Function.update emptyQueue.cbuf
            ⟨emptyQueue.next_to_process % 256, Nat.mod_lt _ (by norm_num)⟩ none,
          next_to_process := (emptyQueue.next_to_process + 1) % 2 ^ 32 }) ∧
    (emptyQueue.cbuf ⟨emptyQueue.next_to_process % 256, Nat.mod_lt _ (by norm_num)⟩ = none →
      emptyQueue.remove_next = (none, emptyQueue))) :=
  chop_c4 emptyQueue (by decide)

/-- On legal inputs send_targeted emits exactly the header followed by
the sealed payload. -/
theorem send_targeted4_some (ecb : List Nat → List Nat) (ct tag : List Nat → List Nat → List Nat)
    (s d p f : Nat) (payload : List Nat)
    (hf : opInvalid f = false) (hs : s < 2 ^ 32) (hd : d ≤ SECTION_LEN)
    (hp : p ≤ SECTION_LEN) (hpl : d ≤ payload.length) :
    send_targeted4 ecb ct tag s d p f (some payload) =
      some (mkBlockHeader s d p f ecb,
        ecb (headerClear s d p f) ++
          gcmSeal ct tag (ecb (headerClear s d p f)) (payload.take d ++ List.replicate p 0)) := by
  have hval := valid_self s d p ecb hf hs
  have hciphr := mk_ciphr s d p ecb hf
  unfold send_targeted4
  rw [if_neg (by simp)]
  rw [if_neg (by omega)]
  simp [hval, hciphr, BlockHeader.nonce, Nat.not_lt.mpr hpl]

/-- Inversion: a successful send_targeted call certifies its length
assertions, fixes the header, and passed the validity assertion. -/
theorem send_targeted4_inv {ecb : List Nat → List Nat} {ct tag : List Nat → List Nat → List Nat}
    {s d p f : Nat} {payload : Option (List Nat)} {hdr : BlockHeader} {blk : List Nat}
    (h : send_targeted4 ecb ct tag s d p f payload = some (hdr, blk)) :
    d ≤ SECTION_LEN ∧ p ≤ SECTION_LEN ∧ hdr = mkBlockHeader s d p f ecb ∧
      (mkBlockHeader s d p f ecb).valid s = true := by
  simp only [send_targeted4] at h
  split at h
  · exact absurd h (by simp)
  · split at h
    · exact absurd h (by simp)
    · rename_i hlen
      split at h
      · exact absurd h (by simp)
      · rename_i hval
        split at h
        · exact absurd h (by simp)
        · simp only [Option.some.injEq, Prod.mk.injEq] at h
          refine ⟨by omega, by omega, h.1.symm, ?_⟩
          cases hv : (mkBlockHeader s d p f ecb).valid s
          · exact absurd hv hval
          · rfl

/-- A successfully emitted block has a legal opcode (the all-0xFF
header of an illegal one cannot pass the validity assertion). -/
theorem send_targeted4_opcode_legal {ecb : List Nat → List Nat}
    {ct tag : List Nat → List Nat → List Nat}
    {s d p f : Nat} {payload : Option (List Nat)} {hdr : BlockHeader} {blk : List Nat}
    (h : send_targeted4 ecb ct tag s d p f payload = some (hdr, blk)) :
    opInvalid f = false := by
  obtain ⟨-, -, -, hval⟩ := send_targeted4_inv h
  cases hinv : opInvalid f
  · rfl
  · exfalso
    have hclear : (mkBlockHeader s d p f ecb).clear = List.replicate 16 0xFF := by
      unfold mkBlockHeader; rw [hinv]; simp
    rw [valid_of_clear_ff hclear s] at hval
    exact absurd hval (by simp)

/-- The emitted block carries the sequence number it was built with. -/
theorem send_targeted4_seqno {ecb : List Nat → List Nat} {ct tag : List Nat → List Nat → List Nat}
    {s d p f : Nat} {payload : Option (List Nat)} {hdr : BlockHeader} {blk : List Nat}
    (hs : s < 2 ^ 32)
    (h : send_targeted4 ecb ct tag s d p f payload = some (hdr, blk)) :
    hdr.seqno = s := by
  obtain ⟨-, -, hhdr, -⟩ := send_targeted4_inv h
  have hleg := send_targeted4_opcode_legal h
  rw [hhdr]
  exact seqno_of_clear s d p f (mk_clear s d p ecb hleg) hs

/-- C1: every block emitted with sequence number S, data length D,
padding length P and a legal opcode F consists of the AES-ECB
encryption of the 16-byte cleartext header (S big-endian in bytes 0-3,
D in 4-5, P in 6-7, F in byte 8, zero in 9-15) as its first 16 bytes,
then the AES-GCM ciphertext of D data bytes followed by P zero bytes
(empty associated data, nonce = the encrypted header) in bytes
16..16+D+P, then the 16-byte GCM tag as the last 16 bytes. -/
theorem chop_c1 (ecb : List Nat → List Nat) (ct tag : List Nat → List Nat → List Nat)
    (s d p f : Nat) (payload : List Nat)
    (hecb : ∀ x, (ecb x).length = 16)
    (hct : ∀ n x, (ct n x).length = x.length)
    (hop : f ≤ 5 ∨ (128 ≤ f ∧ f ≤ 255))
    (hs : s < 2 ^ 32) (hd : d ≤ SECTION_LEN) (hp : p ≤ SECTION_LEN)
    (hpl : d ≤ payload.length) :
    ∃ blk : List Nat,
      send_targeted4 ecb ct tag s d p f (some payload) =
        some (mkBlockHeader s d p f ecb, blk) ∧
      blk.take HEADER_LEN = ecb (headerClear s d p f) ∧
      (blk.drop HEADER_LEN).take (d + p) =
        ct (ecb (headerClear s d p f)) (payload.take d ++ List.replicate p 0) ∧
      blk.drop (HEADER_LEN + (d + p)) =
        tag (ecb (headerClear s d p f)) (payload.take d ++ List.replicate p 0) ∧
      headerClear s d p f =
        [ s / 2 ^ 24 % 256, s / 2 ^ 16 % 256, s / 2 ^ 8 % 256, s % 256,
          d / 256, d % 256, p / 256, p % 256, f, 0, 0, 0, 0, 0, 0, 0 ] := by
  have hfOK : opInvalid f = false := (opInvalid_false_iff f).mpr hop
  have hsend := send_targeted4_some ecb ct tag s d p f payload hfOK hs hd hp hpl
  set N := ecb (headerClear s d p f) with hN
  set E := payload.take d ++ List.replicate p 0 with hE
  have hNlen : N.length = HEADER_LEN := hecb _
  have hElen : E.length = d + p := by
    rw [hE]
    simp only [List.length_append, List.length_take, List.length_replicate]
    omega
  have hCTlen : (ct N E).length = d + p := by rw [hct]; exact hElen
  refine ⟨N ++ gcmSeal ct tag N E, hsend, ?_, ?_, ?_, ?_⟩
  · rw [List.take_left' hNlen]
  · rw [gcmSeal, List.drop_left' hNlen, List.take_left' hCTlen]
  · rw [gcmSeal, show N ++ (ct N E ++ tag N E) = (N ++ ct N E) ++ tag N E from
      (List.append_assoc N (ct N E) (tag N E)).symm]
    rw [List.drop_left' (by rw [List.length_append, hNlen, hCTlen])]
  · unfold headerClear
    have e0 : (s >>> 24) &&& 0xFF = s / 2 ^ 24 % 256 := shr_and_ff s 24
    have e1 : (s >>> 16) &&& 0xFF = s / 2 ^ 16 % 256 := shr_and_ff s 16
    have e2 : (s >>> 8) &&& 0xFF = s / 2 ^ 8 % 256 := shr_and_ff s 8
    have e3 : s &&& 0xFF = s % 256 := and_ff s
    have e4 : (d >>> 8) &&& 0xFF = d / 256 := by
      rw [shr_and_ff]
      have : d ≤ 65535 := hd
      omega
    have e5 : d &&& 0xFF = d % 256 := and_ff d
    have e6 : (p >>> 8) &&& 0xFF = p / 256 := by
      rw [shr_and_ff]
      have : p ≤ 65535 := hp
      omega
    have e7 : p &&& 0xFF = p % 256 := and_ff p
    have e8 : f % 256 = f := by
      have : f ≤ 255 := by rcases hop with h | h <;> omega
      omega
    rw [e0, e1, e2, e3, e4, e5, e6, e7, e8]

/-- C1 witness: a concrete block with one data byte and one padding
byte. -/
theorem chop_c1_witness :
    ∃ blk : List Nat,
      send_targeted4 (fun _ => List.replicate 16 3) (fun _ x => x)
          (fun _ _ => List.replicate 16 9) 1 1 1 0 (some [7]) =
        some (mkBlockHeader 1 1 1 0 (fun _ => List.replicate 16 3), blk) ∧
      blk.take HEADER_LEN = (fun _ => List.replicate 16 3) (headerClear 1 1 1 0) ∧
      (blk.drop HEADER_LEN).take (1 + 1) =
        (fun _ x => x) ((fun _ => List.replicate 16 3) (headerClear 1 1 1 0))
          ([7].take 1 ++ List.replicate 1 0) ∧
      blk.drop (HEADER_LEN + (1 + 1)) =
        (fun _ _ => List.replicate 16 9) ((fun _ => List.replicate 16 3) (headerClear 1 1 1 0))
          ([7].take 1 ++ List.replicate 1 0) ∧
      headerClear 1 1 1 0 =
        [ 1 / 2 ^ 24 % 256, 1 / 2 ^ 16 % 256, 1 / 2 ^ 8 % 256, 1 % 256,
          1 / 256, 1 % 256, 1 / 256, 1 % 256, 0, 0, 0, 0, 0, 0, 0, 0 ] :=
  chop_c1 (fun _ => List.replicate 16 3) (fun _ x => x) (fun _ _ => List.replicate 16 9)
    1 1 1 0 [7] (fun _ => rfl) (fun _ _ => rfl) (Or.inl (by norm_num))
    (by norm_num) (by norm_num [SECTION_LEN]) (by norm_num [SECTION_LEN]) (by norm_num)

/-- C6: every block emitted by send_targeted(conn, blocksize) with
avail pending upstream bytes has data length
min(avail, blocksize-32, 65535), padding length blocksize-32 minus the
data length, and opcode FIN iff the upstream reported EOF, no FIN was
sent yet, and the block carries the last pending byte; otherwise its
opcode is DAT. -/
theorem chop_c6 (ecb : List Nat → List Nat) (ct tag : List Nat → List Nat → List Nat)
    (eof fin : Bool) (pending : List Nat) (ss bs : Nat)
    (hdr : BlockHeader) (blk : List Nat)
    (h : send_targeted2 ecb ct tag eof fin pending ss bs = some (hdr, blk)) :
    hdr.dlen = min pending.length (min (bs - MIN_BLOCK_SIZE) SECTION_LEN) ∧
    hdr.plen = bs - MIN_BLOCK_SIZE - hdr.dlen ∧
    (hdr.opcode = op_FIN ↔ (eof = true ∧ fin = false ∧ hdr.dlen = pending.length)) ∧
    (hdr.opcode ≠ op_FIN → hdr.opcode = op_DAT) := by
  have hm : MIN_BLOCK_SIZE = 32 := rfl
  have hM : MAX_BLOCK_SIZE = 131102 := rfl
  have hS : SECTION_LEN = 65535 := rfl
  simp only [send_targeted2] at h
  split at h
  · exact absurd h (by simp)
  · rename_i hbs
    split at h
    · -- pending.length > SECTION_LEN: data capped, opcode DAT
      rename_i hbig
      dsimp only at h
      obtain ⟨hdS, hpS, hhdr, -⟩ := send_targeted4_inv h
      have hleg : opInvalid op_DAT = false := by decide
      have hcl := mk_clear ss SECTION_LEN ((bs - MIN_BLOCK_SIZE + 2 ^ 64 - SECTION_LEN) % 2 ^ 64)
        ecb hleg
      have hdlen : hdr.dlen = SECTION_LEN := by
        rw [hhdr]; exact dlen_of_clear _ _ _ _ hcl (by omega)
      have hplen : hdr.plen = (bs - MIN_BLOCK_SIZE + 2 ^ 64 - SECTION_LEN) % 2 ^ 64 := by
        rw [hhdr]; exact plen_of_clear _ _ _ _ hcl (by omega)
      have hopc : hdr.opcode = op_DAT := by
        rw [hhdr]; exact opcode_of_clear _ _ _ _ hcl (by norm_num [op_DAT])
      refine ⟨?_, ?_, ?_, ?_⟩
      · rw [hdlen]; omega
      · rw [hplen, hdlen]; omega
      · rw [hopc, hdlen]
        constructor
        · intro hx; exact absurd hx (by norm_num [op_DAT, op_FIN])
        · rintro ⟨-, -, hx⟩; omega
      · intro _; rw [hopc]
    · rename_i hsmall
      split at h
      · -- EOF pending and no FIN sent: opcode FIN
        rename_i hef
        dsimp only at h
        obtain ⟨hdS, hpS, hhdr, -⟩ := send_targeted4_inv h
        have hleg : opInvalid op_FIN = false := by decide
        have hcl := mk_clear ss pending.length
          ((bs - MIN_BLOCK_SIZE + 2 ^ 64 - pending.length) % 2 ^ 64) ecb hleg
        have hdlen : hdr.dlen = pending.length := by
          rw [hhdr]; exact dlen_of_clear _ _ _ _ hcl (by omega)
        have hplen : hdr.plen = (bs - MIN_BLOCK_SIZE + 2 ^ 64 - pending.length) % 2 ^ 64 := by
          rw [hhdr]; exact plen_of_clear _ _ _ _ hcl (by omega)
        have hopc : hdr.opcode = op_FIN := by
          rw [hhdr]; exact opcode_of_clear _ _ _ _ hcl (by norm_num [op_FIN])
        have hef2 : eof = true ∧ fin = false := by
          cases eof <;> cases fin <;> simp_all
        refine ⟨?_, ?_, ?_, ?_⟩
        · rw [hdlen]; omega
        · rw [hplen, hdlen]; omega
        · rw [hopc, hdlen]
          exact iff_of_true rfl ⟨hef2.1, hef2.2, rfl⟩
        · intro hx; exact absurd hopc hx
      · -- no EOF to signal: opcode DAT
        rename_i hef
        dsimp only at h
        obtain ⟨hdS, hpS, hhdr, -⟩ := send_targeted4_inv h
        have hleg : opInvalid op_DAT = false := by decide
        have hcl := mk_clear ss pending.length
          ((bs - MIN_BLOCK_SIZE + 2 ^ 64 - pending.length) % 2 ^ 64) ecb hleg
        have hdlen : hdr.dlen = pending.length := by
          rw [hhdr]; exact dlen_of_clear _ _ _ _ hcl (by omega)
        have hplen : hdr.plen = (bs - MIN_BLOCK_SIZE + 2 ^ 64 - pending.length) % 2 ^ 64 := by
          rw [hhdr]; exact plen_of_clear _ _ _ _ hcl (by omega)
        have hopc : hdr.opcode = op_DAT := by
          rw [hhdr]; exact opcode_of_clear _ _ _ _ hcl (by norm_num [op_DAT])
        refine ⟨?_, ?_, ?_, ?_⟩
        · rw [hdlen]; omega
        · rw [hplen, hdlen]; omega
        · rw [hopc]
          constructor
          · intro hx; exact absurd hx (by norm_num [op_DAT, op_FIN])
          · rintro ⟨he, hf2, -⟩
            exact absurd (by rw [he, hf2]; rfl : (eof && !fin) = true) hef
        · intro _; rw [hopc]

/-- C6 witness: a pure-padding-free DAT block on an empty upstream. -/
theorem chop_c6_witness :
    (mkBlockHeader 0 0 0 0 (fun x => x)).dlen =
      min ([] : List Nat).length (min (32 - MIN_BLOCK_SIZE) SECTION_LEN) ∧
    (mkBlockHeader 0 0 0 0 (fun x => x)).plen =
      32 - MIN_BLOCK_SIZE - (mkBlockHeader 0 0 0 0 (fun x => x)).dlen ∧
    ((mkBlockHeader 0 0 0 0 (fun x => x)).opcode = op_FIN ↔
      (false = true ∧ false = false ∧
        (mkBlockHeader 0 0 0 0 (fun x => x)).dlen = ([] : List Nat).length)) ∧
    ((mkBlockHeader 0 0 0 0 (fun x => x)).opcode ≠ op_FIN →
      (mkBlockHeader 0 0 0 0 (fun x => x)).opcode = op_DAT) :=
  chop_c6 (fun x => x) (fun _ x => x) (fun _ _ => List.replicate 16 0) false false [] 0 32
    (mkBlockHeader 0 0 0 0 (fun x => x)) (List.replicate 32 0) (by rfl)

/-- The emitted sequence numbers are consecutive from the initial
send_seq, and send_seq advances by exactly the number of emitted
blocks (mod 2^32). -/
theorem runSends_spec (ecb : List Nat → List Nat) (ct tag : List Nat → List Nat → List Nat)
    (reqs : List SendReq) :
    ∀ st : SendState, st.send_seq < 2 ^ 32 →
      (∀ i, (hi : i < (runSends ecb ct tag reqs st).1.length) →
        ((runSends ecb ct tag reqs st).1.get ⟨i, hi⟩).seqno = (st.send_seq + i) % 2 ^ 32) ∧
      (runSends ecb ct tag reqs st).2.send_seq =
        (st.send_seq + (runSends ecb ct tag reqs st).1.length) % 2 ^ 32 := by
  induction reqs with
  | nil =>
    intro st hst
    constructor
    · intro i hi
      simp [runSends] at hi
    · simp only [runSends, List.length_nil]
      omega
  | cons r rs ih =>
    intro st hst
    cases hemit : emitStep ecb ct tag st r.d r.p r.f r.payload with
    | none =>
      have hrw : runSends ecb ct tag (r :: rs) st = runSends ecb ct tag rs st := by
        simp [runSends, hemit]
      rw [hrw]
      exact ih st hst
    | some out =>
      obtain ⟨⟨hdr, blk⟩, st'⟩ := out
      have hstep : st' = { send_seq := (st.send_seq + 1) % 2 ^ 32,
                           sent_fin := st.sent_fin || (r.f == op_FIN) } ∧
          send_targeted4 ecb ct tag st.send_seq r.d r.p r.f (some r.payload) =
            some (hdr, blk) := by
        unfold emitStep at hemit
        cases hsend : send_targeted4 ecb ct tag st.send_seq r.d r.p r.f (some r.payload) with
        | none => rw [hsend] at hemit; exact absurd hemit (by simp)
        | some out2 =>
          rw [hsend] at hemit
          simp only [Option.some.injEq, Prod.mk.injEq] at hemit
          exact ⟨hemit.2.symm, congrArg some hemit.1⟩
      obtain ⟨hst', hsend⟩ := hstep
      have hseq : hdr.seqno = st.send_seq := send_targeted4_seqno hst hsend
      have hrw : runSends ecb ct tag (r :: rs) st =
          (hdr :: (runSends ecb ct tag rs st').1, (runSends ecb ct tag rs st').2) := by
        simp [runSends, hemit]
      rw [hrw]
      have hseqv : st'.send_seq = (st.send_seq + 1) % 2 ^ 32 := by rw [hst']
      have hlt' : st'.send_seq < 2 ^ 32 := by
        rw [hseqv]; exact Nat.mod_lt _ (by norm_num)
      obtain ⟨ih1, ih2⟩ := ih st' hlt'
      constructor
      · intro i hi
        cases i with
        | zero =>
          show hdr.seqno = (st.send_seq + 0) % 2 ^ 32
          rw [hseq]
          omega
        | succ i =>
          have hi' : i < (runSends ecb ct tag rs st').1.length := by
            simpa using hi
          show (((runSends ecb ct tag rs st').1).get ⟨i, hi'⟩).seqno =
            (st.send_seq + (i + 1)) % 2 ^ 32
          rw [ih1 i hi', hseqv]
          omega
      · show (runSends ecb ct tag rs st').2.send_seq =
          (st.send_seq + (hdr :: (runSends ecb ct tag rs st').1).length) % 2 ^ 32
        rw [ih2, hseqv]
        simp only [List.length_cons]
        omega

/-- C8: send_seq starts at 0, each successfully emitted block carries
the send_seq current at its emission, send_seq advances by exactly one
per successful emission and by nothing else, and hence no two blocks
emitted before a wrap share a sequence number. -/
theorem chop_c8 (ecb : List Nat → List Nat) (ct tag : List Nat → List Nat → List Nat)
    (reqs : List SendReq) :
    initSendState.send_seq = 0 ∧
    (∀ i, (hi : i < (runSends ecb ct tag reqs initSendState).1.length) →
      ((runSends ecb ct tag reqs initSendState).1.get ⟨i, hi⟩).seqno = i % 2 ^ 32) ∧
    (runSends ecb ct tag reqs initSendState).2.send_seq =
      (runSends ecb ct tag reqs initSendState).1.length % 2 ^ 32 ∧
    (∀ i j, (hi : i < (runSends ecb ct tag reqs initSendState).1.length) →
      (hj : j < (runSends ecb ct tag reqs initSendState).1.length) →
      i < 2 ^ 32 → j < 2 ^ 32 → i ≠ j →
      ((runSends ecb ct tag reqs initSendState).1.get ⟨i, hi⟩).seqno ≠
        ((runSends ecb ct tag reqs initSendState).1.get ⟨j, hj⟩).seqno) := by
  obtain ⟨h1, h2⟩ := runSends_spec ecb ct tag reqs initSendState (by norm_num [initSendState])
  refine ⟨rfl, ?_, ?_, ?_⟩
  · intro i hi
    rw [h1 i hi]
    show (0 + i) % 2 ^ 32 = i % 2 ^ 32
    omega
  · rw [h2]
    show (0 + (runSends ecb ct tag reqs initSendState).1.length) % 2 ^ 32 = _
    omega
  · intro i j hi hj hi32 hj32 hne
    rw [h1 i hi, h1 j hj]
    show (0 + i) % 2 ^ 32 ≠ (0 + j) % 2 ^ 32
    omega

/-- C8 witness: one successful emission from the fresh circuit. -/
theorem chop_c8_witness :
    (runSends (fun _ => List.replicate 16 0) (fun _ x => x) (fun _ _ => List.replicate 16 0)
        [⟨0, 0, 0, []⟩] initSendState).2.send_seq =
      (runSends (fun _ => List.replicate 16 0) (fun _ x => x) (fun _ _ => List.replicate 16 0)
        [⟨0, 0, 0, []⟩] initSendState).1.length % 2 ^ 32 :=
  (chop_c8 (fun _ => List.replicate 16 0) (fun _ x => x) (fun _ _ => List.replicate 16 0)
    [⟨0, 0, 0, []⟩]).2.2.1

/-! The pick_connection loop invariant (C5). -/

theorem clampRoom_le (r : Nat) : clampRoom r ≤ MAX_BLOCK_SIZE := by
  simp only [clampRoom]
  split <;> split <;> omega

/-- What the loop has established about targabove / minabove after
the processed prefix. -/
def AboveInv (desired : Nat) (processed : List ChopConn) (st : PickState) : Prop :=
  (st.targabove = none ∧ st.minabove = MAX_BLOCK_SIZE + 1 ∧
    ∀ c ∈ processed, c.hasSteg = true → clampRoom c.room < desired) ∨
  (∃ c, st.targabove = some c ∧ c ∈ processed ∧ c.hasSteg = true ∧
    desired ≤ clampRoom c.room ∧ clampRoom c.room = st.minabove ∧
    ∀ c2 ∈ processed, c2.hasSteg = true → desired ≤ clampRoom c2.room →
      st.minabove ≤ clampRoom c2.room)

/-- What the loop has established about targbelow / maxbelow after
the processed prefix. -/
def BelowInv (desired : Nat) (processed : List ChopConn) (st : PickState) : Prop :=
  (st.targbelow = none ∧ st.maxbelow = 0 ∧
    ∀ c ∈ processed, c.hasSteg = true →
      (clampRoom c.room = 0 ∨ desired ≤ clampRoom c.room)) ∨
  (∃ c, st.targbelow = some c ∧ c ∈ processed ∧ c.hasSteg = true ∧
    0 < clampRoom c.room ∧ clampRoom c.room < desired ∧ clampRoom c.room = st.maxbelow ∧
    ∀ c2 ∈ processed, c2.hasSteg = true → clampRoom c2.room < desired →
      clampRoom c2.room ≤ st.maxbelow)

theorem forall_append_singleton {α : Type} {P : α → Prop} {l : List α} {c : α}
    (h1 : ∀ x ∈ l, P x) (h2 : P c) : ∀ x ∈ l ++ [c], P x := by
  intro x hx
  rcases List.mem_append.mp hx with h | h
  · exact h1 x h
  · rw [List.mem_singleton.mp h]
    exact h2

theorem mem_append_left_of_mem {α : Type} {l : List α} {c x : α} (h : x ∈ l) :
    x ∈ l ++ [c] :=
  List.mem_append.mpr (Or.inl h)

theorem mem_append_self {α : Type} (l : List α) (c : α) : c ∈ l ++ [c] :=
  List.mem_append.mpr (Or.inr (List.mem_singleton.mpr rfl))

theorem pickStep_inv (desired : Nat) (processed : List ChopConn) (st : PickState) (c : ChopConn)
    (hA : AboveInv desired processed st) (hB : BelowInv desired processed st) :
    AboveInv desired (processed ++ [c]) (pickStep desired st c) ∧
    BelowInv desired (processed ++ [c]) (pickStep desired st c) := by
  by_cases hs : c.hasSteg = true
  · by_cases habove : desired ≤ clampRoom c.room
    · by_cases hmin : clampRoom c.room < st.minabove
      · -- the new smallest adequate room
        have hstep : pickStep desired st c =
            { st with minabove := clampRoom c.room, targabove := some c } := by
          simp only [pickStep]
          rw [if_pos hs, if_pos habove, if_pos hmin]
        rw [hstep]
        dsimp only [AboveInv, BelowInv]
        constructor
        · refine Or.inr ⟨c, rfl, mem_append_self processed c, hs, habove, rfl, ?_⟩
          intro c2 hc2 hst2 hd2
          rcases List.mem_append.mp hc2 with hmem | hmem
          · rcases hA with ⟨-, -, h3⟩ | ⟨a, -, -, -, -, h5, h6⟩
            · exact absurd hd2 (by have := h3 c2 hmem hst2; omega)
            · have := h6 c2 hmem hst2 hd2
              omega
          · rw [List.mem_singleton.mp hmem]
        · rcases hB with ⟨h1, h2, h3⟩ | ⟨b, h1, h2, h3, h4, h5, h6, h7⟩
          · exact Or.inl ⟨h1, h2,
              forall_append_singleton h3 (fun _ => Or.inr habove)⟩
          · refine Or.inr ⟨b, h1, mem_append_left_of_mem h2, h3, h4, h5, h6, ?_⟩
            refine forall_append_singleton h7 ?_
            intro _ hlt
            omega
      · -- adequate but not better than the current targabove
        have hstep : pickStep desired st c = st := by
          simp only [pickStep]
          rw [if_pos hs, if_pos habove, if_neg hmin]
        rw [hstep]
        constructor
        · rcases hA with ⟨-, h2, -⟩ | ⟨a, h1, h2, h3, h4, h5, h6⟩
          · exfalso
            have := clampRoom_le c.room
            omega
          · refine Or.inr ⟨a, h1, mem_append_left_of_mem h2, h3, h4, h5, ?_⟩
            refine forall_append_singleton h6 ?_
            intro _ _
            omega
        · rcases hB with ⟨h1, h2, h3⟩ | ⟨b, h1, h2, h3, h4, h5, h6, h7⟩
          · exact Or.inl ⟨h1, h2,
              forall_append_singleton h3 (fun _ => Or.inr habove)⟩
          · refine Or.inr ⟨b, h1, mem_append_left_of_mem h2, h3, h4, h5, h6, ?_⟩
            refine forall_append_singleton h7 ?_
            intro _ hlt
            omega
    · by_cases hmax : st.maxbelow < clampRoom c.room
      · -- the new largest inadequate room
        have hstep : pickStep desired st c =
            { st with maxbelow := clampRoom c.room, targbelow := some c } := by
          simp only [pickStep]
          rw [if_pos hs, if_neg habove, if_pos hmax]
        rw [hstep]
        dsimp only [AboveInv, BelowInv]
        constructor
        · rcases hA with ⟨h1, h2, h3⟩ | ⟨a, h1, h2, h3, h4, h5, h6⟩
          · exact Or.inl ⟨h1, h2,
              forall_append_singleton h3 (fun _ => by omega)⟩
          · refine Or.inr ⟨a, h1, mem_append_left_of_mem h2, h3, h4, h5, ?_⟩
            refine forall_append_singleton h6 ?_
            intro _ hd2
            exact absurd hd2 habove
        · refine Or.inr ⟨c, rfl, mem_append_self processed c, hs, by omega, by omega, rfl, ?_⟩
          intro c2 hc2 hst2 hlt2
          rcases List.mem_append.mp hc2 with hmem | hmem
          · rcases hB with ⟨-, h2, h3⟩ | ⟨b, -, -, -, -, -, h6, h7⟩
            · rcases h3 c2 hmem hst2 with hz | hge
              · omega
              · omega
            · have := h7 c2 hmem hst2 hlt2
              omega
          · rw [List.mem_singleton.mp hmem]
      · -- inadequate and not better than the current targbelow
        have hstep : pickStep desired st c = st := by
          simp only [pickStep]
          rw [if_pos hs, if_neg habove, if_neg hmax]
        rw [hstep]
        constructor
        · rcases hA with ⟨h1, h2, h3⟩ | ⟨a, h1, h2, h3, h4, h5, h6⟩
          · exact Or.inl ⟨h1, h2,
              forall_append_singleton h3 (fun _ => by omega)⟩
          · refine Or.inr ⟨a, h1, mem_append_left_of_mem h2, h3, h4, h5, ?_⟩
            refine forall_append_singleton h6 ?_
            intro _ hd2
            exact absurd hd2 habove
        · rcases hB with ⟨h1, h2, h3⟩ | ⟨b, h1, h2, h3, h4, h5, h6, h7⟩
          · refine Or.inl ⟨h1, h2, forall_append_singleton h3 ?_⟩
            intro _
            left
            omega
          · refine Or.inr ⟨b, h1, mem_append_left_of_mem h2, h3, h4, h5, h6, ?_⟩
            refine forall_append_singleton h7 ?_
            intro _ _
            omega
  · -- no steg handle: skipped
    have hstep : pickStep desired st c = st := by
      simp only [pickStep]
      rw [if_neg hs]
    rw [hstep]
    constructor
    · rcases hA with ⟨h1, h2, h3⟩ | ⟨a, h1, h2, h3, h4, h5, h6⟩
      · exact Or.inl ⟨h1, h2,
          forall_append_singleton h3 (fun hst2 => absurd hst2 hs)⟩
      · refine Or.inr ⟨a, h1, mem_append_left_of_mem h2, h3, h4, h5, ?_⟩
        exact forall_append_singleton h6 (fun hst2 => absurd hst2 hs)
    · rcases hB with ⟨h1, h2, h3⟩ | ⟨b, h1, h2, h3, h4, h5, h6, h7⟩
      · exact Or.inl ⟨h1, h2,
          forall_append_singleton h3 (fun hst2 => absurd hst2 hs)⟩
      · refine Or.inr ⟨b, h1, mem_append_left_of_mem h2, h3, h4, h5, h6, ?_⟩
        exact forall_append_singleton h7 (fun hst2 => absurd hst2 hs)

theorem pickFold_inv (desired : Nat) (l : List ChopConn) :
    ∀ (st : PickState) (processed : List ChopConn),
      AboveInv desired processed st → BelowInv desired processed st →
      AboveInv desired (processed ++ l) (l.foldl (pickStep desired) st) ∧
      BelowInv desired (processed ++ l) (l.foldl (pickStep desired) st) := by
  induction l with
  | nil =>
    intro st processed hA hB
    simpa using ⟨hA, hB⟩
  | cons c cs ih =>
    intro st processed hA hB
    have hstep := pickStep_inv desired processed st c hA hB
    have hrec := ih (pickStep desired st c) (processed ++ [c]) hstep.1 hstep.2
    simpa [List.append_assoc] using hrec

theorem pickInit_above (desired : Nat) : AboveInv desired [] pickInit :=
  Or.inl ⟨rfl, rfl, by simp⟩

theorem pickInit_below (desired : Nat) : BelowInv desired [] pickInit :=
  Or.inl ⟨rfl, rfl, by simp⟩

theorem pick_connection_desired (d : Nat) :
    (if d > SECTION_LEN then SECTION_LEN else d) + MIN_BLOCK_SIZE =
      min d SECTION_LEN + MIN_BLOCK_SIZE := by
  congr 1
  split <;> omega

/-- C5: pick_connection targets total size min(d, 65535) + 32; each
downstream with a steg handle contributes its transmit_room with
values at most 32 treated as 0 and values above MAX_BLOCK_SIZE clamped
to it; the connection with the smallest adequate room wins (blocksize
= desired), else the one with the largest nonzero inadequate room
(blocksize = that room), else none with blocksize 0. -/
theorem chop_c5 (l : List ChopConn) (d : Nat) :
    ((∃ c ∈ l, c.hasSteg = true ∧ min d SECTION_LEN + MIN_BLOCK_SIZE ≤ clampRoom c.room) →
      ∃ c, (pick_connection l d).1 = some c ∧ c ∈ l ∧ c.hasSteg = true ∧
        min d SECTION_LEN + MIN_BLOCK_SIZE ≤ clampRoom c.room ∧
        (∀ c2 ∈ l, c2.hasSteg = true →
          min d SECTION_LEN + MIN_BLOCK_SIZE ≤ clampRoom c2.room →
          clampRoom c.room ≤ clampRoom c2.room) ∧
        (pick_connection l d).2 = min d SECTION_LEN + MIN_BLOCK_SIZE) ∧
    ((∀ c ∈ l, c.hasSteg = true → clampRoom c.room < min d SECTION_LEN + MIN_BLOCK_SIZE) →
      (∃ c ∈ l, c.hasSteg = true ∧ 0 < clampRoom c.room) →
      ∃ c, (pick_connection l d).1 = some c ∧ c ∈ l ∧ c.hasSteg = true ∧
        0 < clampRoom c.room ∧ clampRoom c.room < min d SECTION_LEN + MIN_BLOCK_SIZE ∧
        (∀ c2 ∈ l, c2.hasSteg = true → clampRoom c2.room ≤ clampRoom c.room) ∧
        (pick_connection l d).2 = clampRoom c.room) ∧
    ((∀ c ∈ l, c.hasSteg = true → clampRoom c.room = 0) →
      (pick_connection l d).1 = none ∧ (pick_connection l d).2 = 0) := by
  obtain ⟨hA, hB⟩ := pickFold_inv (min d SECTION_LEN + MIN_BLOCK_SIZE) l pickInit []
    (pickInit_above _) (pickInit_below _)
  rw [List.nil_append] at hA hB
  have hpc : pick_connection l d =
      (match (l.foldl (pickStep (min d SECTION_LEN + MIN_BLOCK_SIZE)) pickInit).targabove with
       | some c => (some c, min d SECTION_LEN + MIN_BLOCK_SIZE)
       | none => ((l.foldl (pickStep (min d SECTION_LEN + MIN_BLOCK_SIZE)) pickInit).targbelow,
                  (l.foldl (pickStep (min d SECTION_LEN + MIN_BLOCK_SIZE)) pickInit).maxbelow)) := by
    simp only [pick_connection]
    rw [pick_connection_desired d]
  refine ⟨?_, ?_, ?_⟩
  · rintro ⟨c0, hc0mem, hc0steg, hc0room⟩
    rcases hA with ⟨-, -, h3⟩ | ⟨a, ha1, ha2, ha3, ha4, ha5, ha6⟩
    · exact absurd hc0room (by have := h3 c0 hc0mem hc0steg; omega)
    · refine ⟨a, ?_, ha2, ha3, ha4, ?_, ?_⟩
      · rw [hpc, ha1]
      · intro c2 hc2 hs2 hr2
        have := ha6 c2 hc2 hs2 hr2
        omega
      · rw [hpc, ha1]
  · intro hall
    rintro ⟨c0, hc0mem, hc0steg, hc0pos⟩
    rcases hA with ⟨haN1, -, -⟩ | ⟨a, -, ha2, ha3, ha4, -, -⟩
    · rcases hB with ⟨hbN1, hbN2, hb3⟩ | ⟨b, hb1, hb2, hb3, hb4, hb5, hb6, hb7⟩
      · exfalso
        rcases hb3 c0 hc0mem hc0steg with hz | hge
        · omega
        · have := hall c0 hc0mem hc0steg
          omega
      · refine ⟨b, ?_, hb2, hb3, hb4, hb5, ?_, ?_⟩
        · rw [hpc, haN1]
          exact hb1
        · intro c2 hc2 hs2
          have := hb7 c2 hc2 hs2 (hall c2 hc2 hs2)
          omega
        · rw [hpc, haN1]
          exact hb6.symm
    · exfalso
      have := hall a ha2 ha3
      omega
  · intro hzero
    rcases hA with ⟨haN1, -, -⟩ | ⟨a, -, ha2, ha3, ha4, -, -⟩
    · rcases hB with ⟨hbN1, hbN2, -⟩ | ⟨b, -, hb2, hb3, hb4, -, -, -⟩
      · constructor
        · rw [hpc, haN1]
          exact hbN1
        · rw [hpc, haN1]
          exact hbN2
      · exfalso
        have := hzero b hb2 hb3
        omega
    · exfalso
      have hz := hzero a ha2 ha3
      have hm : MIN_BLOCK_SIZE = 32 := rfl
      omega

/-- C5 witness: a single adequate downstream is picked with blocksize
equal to the desired size. -/
theorem chop_c5_witness :
    ∃ c, (pick_connection [⟨0, true, 100⟩] 0).1 = some c ∧ c ∈ [(⟨0, true, 100⟩ : ChopConn)] ∧
      c.hasSteg = true ∧
      min 0 SECTION_LEN + MIN_BLOCK_SIZE ≤ clampRoom c.room ∧
      (∀ c2 ∈ [(⟨0, true, 100⟩ : ChopConn)], c2.hasSteg = true →
        min 0 SECTION_LEN + MIN_BLOCK_SIZE ≤ clampRoom c2.room →
        clampRoom c.room ≤ clampRoom c2.room) ∧
      (pick_connection [⟨0, true, 100⟩] 0).2 = min 0 SECTION_LEN + MIN_BLOCK_SIZE :=
  (chop_c5 [⟨0, true, 100⟩] 0).1
    ⟨⟨0, true, 100⟩, by simp, rfl, by decide⟩

/-! The receive-error paths (C7). -/

theorem recvBlocks_succ (dc : List Nat → List Nat) (g : List Nat → List Nat → Option (List Nat))
    (fuel : Nat) (q : ReassemblyQueue) (pending : List Nat) :
    recvBlocks dc g (fuel + 1) q pending =
      if pending.length = 0 then (LoopExit.done, q, pending)
      else if pending.length < MIN_BLOCK_SIZE then (LoopExit.done, q, pending)
      else
        if (decodeBlockHeader pending dc).valid q.window = false then
          (LoopExit.fail, q, pending)
        else if pending.length < (decodeBlockHeader pending dc).total_len then
          (LoopExit.done, q, pending)
        else
          match g (decodeBlockHeader pending dc).nonce
              ((pending.drop HEADER_LEN).take
                ((decodeBlockHeader pending dc).total_len - HEADER_LEN)) with
          | none => (LoopExit.fail, q, pending.drop (decodeBlockHeader pending dc).total_len)
          | some ptext =>
              if (q.insert (decodeBlockHeader pending dc).seqno
                  (decodeBlockHeader pending dc).opcode
                  (ptext.take (decodeBlockHeader pending dc).dlen)).1 then
                recvBlocks dc g fuel
                  (q.insert (decodeBlockHeader pending dc).seqno
                    (decodeBlockHeader pending dc).opcode
                    (ptext.take (decodeBlockHeader pending dc).dlen)).2
                  (pending.drop (decodeBlockHeader pending dc).total_len)
              else
                (LoopExit.fail,
                  (q.insert (decodeBlockHeader pending dc).seqno
                    (decodeBlockHeader pending dc).opcode
                    (ptext.take (decodeBlockHeader pending dc).dlen)).2,
                  pending.drop (decodeBlockHeader pending dc).total_len) := rfl

/-- A rejecting insert leaves the queue untouched (both rejection
branches of chop.cc lines 259-270 return without writing). -/
theorem insert_false_snd (q : ReassemblyQueue) (s o : Nat) (dt : List Nat) :
    (q.insert s o dt).2 = q ∨ (q.insert s o dt).1 = true := by
  simp only [ReassemblyQueue.insert]
  split
  · exact Or.inl rfl
  · split
    · exact Or.inl rfl
    · exact Or.inr rfl

/-- C7 (amended): when the receive loop decodes a block whose header
is invalid, or whose sequence number is rejected by the reassembly
queue (out of window or duplicate), chop_conn_t::recv returns -1
immediately without sending any RST block and without touching the
circuit state; process_queue (the only place RSTs originate) is never
reached on these paths. -/
theorem chop_c7_amended (dc : List Nat → List Nat)
    (gcmOpen : List Nat → List Nat → Option (List Nat))
    (fin : Bool) (q : ReassemblyQueue) (pending : List Nat) :
    (MIN_BLOCK_SIZE ≤ pending.length →
      (decodeBlockHeader pending dc).valid q.window = false →
      chop_recv dc gcmOpen fin q pending =
        { ok := false, q := q, leftover := pending, received_fin := fin,
          eofSignaled := false, rstAttempts := 0, delivered := [] }) ∧
    (MIN_BLOCK_SIZE ≤ pending.length →
      (decodeBlockHeader pending dc).valid q.window = true →
      (decodeBlockHeader pending dc).total_len ≤ pending.length →
      ∀ ptext, gcmOpen (decodeBlockHeader pending dc).nonce
          ((pending.drop HEADER_LEN).take
            ((decodeBlockHeader pending dc).total_len - HEADER_LEN)) = some ptext →
      (q.insert (decodeBlockHeader pending dc).seqno (decodeBlockHeader pending dc).opcode
          (ptext.take (decodeBlockHeader pending dc).dlen)).1 = false →
      chop_recv dc gcmOpen fin q pending =
        { ok := false, q := q,
          leftover := pending.drop (decodeBlockHeader pending dc).total_len,
          received_fin := fin, eofSignaled := false, rstAttempts := 0,
          delivered := [] }) := by
  have hm : MIN_BLOCK_SIZE = 32 := rfl
  constructor
  · intro hlen hbad
    have hrb : recvBlocks dc gcmOpen (pending.length + 1) q pending =
        (LoopExit.fail, q, pending) := by
      rw [recvBlocks_succ]
      rw [if_neg (by omega), if_neg (by omega), if_pos hbad]
    simp only [chop_recv, hrb]
  · intro hlen hok htot ptext hopen hfail
    have hq2 : (q.insert (decodeBlockHeader pending dc).seqno
        (decodeBlockHeader pending dc).opcode
        (ptext.take (decodeBlockHeader pending dc).dlen)).2 = q := by
      rcases insert_false_snd q (decodeBlockHeader pending dc).seqno
        (decodeBlockHeader pending dc).opcode
        (ptext.take (decodeBlockHeader pending dc).dlen) with h | h
      · exact h
      · rw [hfail] at h
        exact absurd h (by simp)
    have hrb : recvBlocks dc gcmOpen (pending.length + 1) q pending =
        (LoopExit.fail, q, pending.drop (decodeBlockHeader pending dc).total_len) := by
      rw [recvBlocks_succ]
      rw [if_neg (by omega), if_neg (by omega)]
      rw [if_neg (by simp [hok])]
      rw [if_neg (by omega)]
      simp only [hopen]
      rw [if_neg (by simp [hfail])]
      rw [hq2]
    simp only [chop_recv, hrb]

/-- C7 counterexample: a received block whose decrypted header has a
nonzero check field makes recv fail, but no RST block is sent (the
claim demands exactly one). -/
theorem chop_c7_counterexample :
    (decodeBlockHeader (List.replicate 32 1) (fun x => x)).valid emptyQueue.window = false ∧
    (chop_recv (fun x => x) (fun _ _ => none) false emptyQueue
      (List.replicate 32 1)).ok = false ∧
    (chop_recv (fun x => x) (fun _ _ => none) false emptyQueue
      (List.replicate 32 1)).rstAttempts = 0 := by
  exact ⟨by decide, by decide, by decide⟩

/-- C7 witness: the amended theorem applied at the concrete
invalid-header input. -/
theorem chop_c7_amended_witness :
    chop_recv (fun x => x) (fun _ _ => none) false emptyQueue (List.replicate 32 1) =
      { ok := false, q := emptyQueue, leftover := List.replicate 32 1,
        received_fin := false, eofSignaled := false, rstAttempts := 0,
        delivered := [] } :=
  (chop_c7_amended (fun x => x) (fun _ _ => none) false emptyQueue
    (List.replicate 32 1)).1 (by decide) (by decide)

end Chop
